import Mathlib

/-
Verification of the ldpi ladder-logic interpreter (src/ldpi.c) against its
specification.  The development shallowly embeds the C program:

  * BinOp mirrors the C struct BinOp (WORD op, name1, name2, name3;
    SWORD literal).  WORD fields become Nat (values < 2^16 where relevant),
    the SWORD literal becomes Int in the range [-32768, 32767].
  * Machine bundles the three globals Program, Integers, Bits.  Banks are
    total maps Nat -> Int and Nat -> Bool (the C arrays, index-addressed).
  * execOp is the body of the switch inside InterpretOneCycle; interpretFrom
    is the for(pc = 0; ; pc++) loop, made total with a fuel parameter
    (returning none when fuel runs out or the fetch leaves the program,
    which in C would be undefined behaviour).
  * LoadProgram, loadSymbols, Disassemble embed the corresponding C
    routines; every call of BadFormat / exit(-1) (and every
    undefined-behaviour path such as dereferencing a NULL token) is
    modelled as the result none.
-/

/-- The instruction record of the virtual machine, mirroring struct BinOp
in src/ldpi.c: opcode and three operand words plus one signed literal. -/
structure BinOp where
  op : Nat
  name1 : Nat
  name2 : Nat
  name3 : Nat
  literal : Int
deriving Repr, DecidableEq

/-- Modelled from the spec: the numeric opcode values come from intcode.h
(included with INTCODE_H_CONSTANTS_ONLY), which is not part of src/.  The
spec fixes the set of defined opcodes; only distinctness of the numeric
values matters to the semantics, so we fix concrete distinct values. -/
def INT_SET_BIT : Nat := 1

def INT_CLEAR_BIT : Nat := 2

def INT_COPY_BIT_TO_BIT : Nat := 3

def INT_SET_VARIABLE_TO_LITERAL : Nat := 4

def INT_SET_VARIABLE_TO_VARIABLE : Nat := 5

def INT_INCREMENT_VARIABLE : Nat := 6

def INT_SET_VARIABLE_ADD : Nat := 7

def INT_SET_VARIABLE_SUBTRACT : Nat := 8

def INT_SET_VARIABLE_MULTIPLY : Nat := 9

def INT_SET_VARIABLE_DIVIDE : Nat := 10

def INT_IF_BIT_SET : Nat := 50

def INT_IF_BIT_CLEAR : Nat := 51

def INT_IF_VARIABLE_LES_LITERAL : Nat := 52

def INT_IF_VARIABLE_EQUALS_VARIABLE : Nat := 53

def INT_IF_VARIABLE_GRT_VARIABLE : Nat := 54

def INT_ELSE : Nat := 60

def INT_END_OF_PROGRAM : Nat := 61

/-- The defined opcode set of the virtual machine (section 4.1 of the spec). -/
def definedOp (w : Nat) : Bool :=
  w = INT_SET_BIT || w = INT_CLEAR_BIT || w = INT_COPY_BIT_TO_BIT ||
  w = INT_SET_VARIABLE_TO_LITERAL || w = INT_SET_VARIABLE_TO_VARIABLE ||
  w = INT_INCREMENT_VARIABLE || w = INT_SET_VARIABLE_ADD ||
  w = INT_SET_VARIABLE_SUBTRACT || w = INT_SET_VARIABLE_MULTIPLY ||
  w = INT_SET_VARIABLE_DIVIDE || w = INT_IF_BIT_SET || w = INT_IF_BIT_CLEAR ||
  w = INT_IF_VARIABLE_LES_LITERAL || w = INT_IF_VARIABLE_EQUALS_VARIABLE ||
  w = INT_IF_VARIABLE_GRT_VARIABLE || w = INT_ELSE || w = INT_END_OF_PROGRAM

/-- The opcodes that assign to pc (the five conditionals and ELSE). -/
def isJump (w : Nat) : Bool :=
  w = INT_IF_BIT_SET || w = INT_IF_BIT_CLEAR ||
  w = INT_IF_VARIABLE_LES_LITERAL || w = INT_IF_VARIABLE_EQUALS_VARIABLE ||
  w = INT_IF_VARIABLE_GRT_VARIABLE || w = INT_ELSE

/-- Two's-complement 16-bit wrap: the effect of storing an int value into a
SWORD (signed short) on the target (gcc on the Raspberry Pi wraps). -/
def wrap16 (n : Int) : Int := (n + 32768) % 65536 - 32768

/-- Reinterpret a 16-bit unsigned word as the SWORD it denotes. -/
def toSigned (w : Nat) : Int := if w < 32768 then (w : Int) else (w : Int) - 65536

/-- Pointwise update of the bit bank (Bits[a] = v). -/
def setBit (f : Nat → Bool) (a : Nat) (v : Bool) : Nat → Bool :=
  fun i => if i = a then v else f i

/-- Pointwise update of the integer bank (Integers[a] = v). -/
def setInt (f : Nat → Int) (a : Nat) (v : Int) : Nat → Int :=
  fun i => if i = a then v else f i

/-- The global state of the virtual machine: the loaded Program and the two
memory banks (globals Program, Integers, Bits in src/ldpi.c). -/
structure Machine where
  Program : List BinOp
  Integers : Nat → Int
  Bits : Nat → Bool

/-- Outcome of executing one switch body inside InterpretOneCycle: either
fall out of the switch with the pc value the C code leaves in pc (the loop
header then increments it), or return from the cycle (INT_END_OF_PROGRAM). -/
inductive StepResult where
  | next (pc : Nat) (m : Machine)
  | done (m : Machine)

/-- The body of the switch statement of InterpretOneCycle in src/ldpi.c,
one branch per case label, in source order.  The final branch is the
absence of a default case: an unrecognized opcode falls through the whole
switch, leaving pc and both banks untouched. -/
def execOp (p : BinOp) (pc : Nat) (m : Machine) : StepResult :=
  if p.op = INT_SET_BIT then
    .next pc { m with Bits := setBit m.Bits p.name1 true }
  else if p.op = INT_CLEAR_BIT then
    .next pc { m with Bits := setBit m.Bits p.name1 false }
  else if p.op = INT_COPY_BIT_TO_BIT then
    .next pc { m with Bits := setBit m.Bits p.name1 (m.Bits p.name2) }
  else if p.op = INT_SET_VARIABLE_TO_LITERAL then
    .next pc { m with Integers := setInt m.Integers p.name1 p.literal }
  else if p.op = INT_SET_VARIABLE_TO_VARIABLE then
    .next pc { m with Integers := setInt m.Integers p.name1 (m.Integers p.name2) }
  else if p.op = INT_INCREMENT_VARIABLE then
    .next pc { m with Integers := setInt m.Integers p.name1 (wrap16 (m.Integers p.name1 + 1)) }
  else if p.op = INT_SET_VARIABLE_ADD then
    .next pc { m with Integers := setInt m.Integers p.name1 (wrap16 (m.Integers p.name2 + m.Integers p.name3)) }
  else if p.op = INT_SET_VARIABLE_SUBTRACT then
    .next pc { m with Integers := setInt m.Integers p.name1 (wrap16 (m.Integers p.name2 - m.Integers p.name3)) }
  else if p.op = INT_SET_VARIABLE_MULTIPLY then
    .next pc { m with Integers := setInt m.Integers p.name1 (wrap16 (m.Integers p.name2 * m.Integers p.name3)) }
  else if p.op = INT_SET_VARIABLE_DIVIDE then
    .next pc (if m.Integers p.name3 ≠ 0 then
      { m with Integers := setInt m.Integers p.name1 (wrap16 (Int.tdiv (m.Integers p.name2) (m.Integers p.name3))) }
    else m)
  else if p.op = INT_IF_BIT_SET then
    .next (if m.Bits p.name1 = false then p.name3 else pc) m
  else if p.op = INT_IF_BIT_CLEAR then
    .next (if m.Bits p.name1 = true then p.name3 else pc) m
  else if p.op = INT_IF_VARIABLE_LES_LITERAL then
    .next (if ¬ (m.Integers p.name1 < p.literal) then p.name3 else pc) m
  else if p.op = INT_IF_VARIABLE_EQUALS_VARIABLE then
    .next (if ¬ (m.Integers p.name1 = m.Integers p.name2) then p.name3 else pc) m
  else if p.op = INT_IF_VARIABLE_GRT_VARIABLE then
    .next (if ¬ (m.Integers p.name1 > m.Integers p.name2) then p.name3 else pc) m
  else if p.op = INT_ELSE then
    .next p.name3 m
  else if p.op = INT_END_OF_PROGRAM then
    .done m
  else
    .next pc m

/-- The for(pc = 0; ; pc++) loop of InterpretOneCycle, with explicit fuel.
Fetching outside the program (undefined behaviour in C) and running out of
fuel both yield none; reaching INT_END_OF_PROGRAM yields the final state. -/
def interpretFrom : Nat → Nat → Machine → Option Machine
  | 0, _, _ => none
  | fuel + 1, pc, m =>
    match m.Program.get? pc with
    | none => none
    | some p =>
      match execOp p pc m with
      | .done m1 => some m1
      | .next pc1 m1 => interpretFrom fuel (pc1 + 1) m1

/-- InterpretOneCycle of src/ldpi.c: one scan of the program from pc = 0. -/
def InterpretOneCycle (fuel : Nat) (m : Machine) : Option Machine :=
  interpretFrom fuel 0 m

/-- Repeated cycles: the driver loop calling InterpretOneCycle over and over. -/
def iterCycle (fuel : Nat) : Nat → Machine → Option Machine
  | 0, m => some m
  | n + 1, m => (InterpretOneCycle fuel m).bind (iterCycle fuel n)

/-- Character list of a string literal (lines are modelled as char lists). -/
def strL (s : String) : List Char := s.toList

/-- strstr used as a boolean test: does sub occur inside hay. -/
def strstrB (hay sub : List Char) : Bool :=
  hay.tails.any (fun t => sub.isPrefixOf t)

/-- tolower restricted to ASCII, as used by HexDigit. -/
def tolowerC (c : Char) : Char :=
  if 65 ≤ c.toNat ∧ c.toNat ≤ 90 then Char.ofNat (c.toNat + 32) else c

/-- HexDigit of src/ldpi.c: value of one hex character; BadFormat (none)
on anything that is not a hexadecimal digit. -/
def HexDigit (c : Char) : Option Nat :=
  let l := tolowerC c
  if 48 ≤ l.toNat ∧ l.toNat ≤ 57 then some (l.toNat - 48)
  else if 97 ≤ l.toNat ∧ l.toNat ≤ 102 then some ((l.toNat - 97) + 10)
  else none

/-- The inner byte loop of LoadProgram: n bytes from 2n hex characters,
b = HexDigit(t[1]) | (HexDigit(t[0]) << 4).  Running into the end of the
line means HexDigit meets the newline or NUL terminator: BadFormat. -/
def parseBytes : Nat → List Char → Option (List Nat)
  | 0, _ => some []
  | n + 1, c0 :: c1 :: rest =>
    match HexDigit c0, HexDigit c1, parseBytes n rest with
    | some h0, some h1, some bs => some ((h1 + 16 * h0) :: bs)
    | _, _, _ => none
  | _ + 1, _ => none

/-- One code line decoded into a BinOp: sizeof(BinOp) = 10 bytes, laid out
little-endian (the Raspberry Pi target) as the five 16-bit fields. -/
def parseOpLine (l : List Char) : Option BinOp :=
  match parseBytes 10 l with
  | some [b0, b1, b2, b3, b4, b5, b6, b7, b8, b9] =>
    some ⟨b0 + 256 * b1, b2 + 256 * b3, b4 + 256 * b5, b6 + 256 * b7,
          toSigned (b8 + 256 * b9)⟩
  | _ => none

/-- The code-loading loop of LoadProgram: one instruction per line until a
line containing the marker bits-section string; end of file first is
BadFormat.  Returns the decoded instructions and the remaining lines. -/
def loadCode : List (List Char) → Option (List BinOp × List (List Char))
  | [] => none
  | l :: rest =>
    if strstrB l (strL ("$$bits")) then some ([], rest)
    else
      match parseOpLine l, loadCode rest with
      | some p, some (ops, r) => some (p :: ops, r)
      | _, _ => none

/-- The sixteen interface variables GPI0..GPI7, GPO0..GPO7 of src/ldpi.c. -/
inductive GName where
  | GPI0 | GPI1 | GPI2 | GPI3 | GPI4 | GPI5 | GPI6 | GPI7
  | GPO0 | GPO1 | GPO2 | GPO3 | GPO4 | GPO5 | GPO6 | GPO7
deriving DecidableEq, Repr

/-- The name searched for (via strstr) for each interface variable. -/
def gpat : GName → List Char
  | .GPI0 => strL ("GPI0")
  | .GPI1 => strL ("GPI1")
  | .GPI2 => strL ("GPI2")
  | .GPI3 => strL ("GPI3")
  | .GPI4 => strL ("GPI4")
  | .GPI5 => strL ("GPI5")
  | .GPI6 => strL ("GPI6")
  | .GPI7 => strL ("GPI7")
  | .GPO0 => strL ("GPO0")
  | .GPO1 => strL ("GPO1")
  | .GPO2 => strL ("GPO2")
  | .GPO3 => strL ("GPO3")
  | .GPO4 => strL ("GPO4")
  | .GPO5 => strL ("GPO5")
  | .GPO6 => strL ("GPO6")
  | .GPO7 => strL ("GPO7")

/-- All sixteen interface variables. -/
def gnameList : List GName :=
  [.GPI0, .GPI1, .GPI2, .GPI3, .GPI4, .GPI5, .GPI6, .GPI7,
   .GPO0, .GPO1, .GPO2, .GPO3, .GPO4, .GPO5, .GPO6, .GPO7]

/-- Character class tested by atoi when skipping leading space. -/
def isSpaceC (c : Char) : Bool :=
  c == ' ' || c == '\t' || c == '\n' || c == '\r' || c.toNat == 11 || c.toNat == 12

/-- Decimal accumulator of atoi: consumes digits, stops at the first
non-digit. -/
def digitsValAux (acc : Nat) : List Char → Nat
  | [] => acc
  | c :: rest =>
    if 48 ≤ c.toNat ∧ c.toNat ≤ 57 then digitsValAux (acc * 10 + (c.toNat - 48)) rest
    else acc

/-- atoi as used by LoadProgram: skip spaces, optional sign, digits. -/
def atoiChars (l : List Char) : Int :=
  match l.dropWhile isSpaceC with
  | '-' :: rest => - (digitsValAux 0 rest : Int)
  | '+' :: rest => (digitsValAux 0 rest : Int)
  | l1 => (digitsValAux 0 l1 : Int)

/-- The sixteen independent strstr tests and assignments of the symbol
loop, modelled as one indexed update: every interface variable whose name
occurs inside the symbol token is set to atoi(addr).  When the address
token is missing (strtok returned NULL) and at least one name matches, the
C code passes NULL to atoi, which crashes: modelled as none. -/
def procGpio (symbol : List Char) (addr : Option (List Char))
    (st : GName → Int) : Option (GName → Int) :=
  match addr with
  | some a => some (fun g => if strstrB symbol (gpat g) then atoiChars a else st g)
  | none =>
    if gnameList.any (fun g => strstrB symbol (gpat g)) then none else some st

/-- Delimiters of the second strtok call of the symbol loop. -/
def symDelim (c : Char) : Bool := c == ',' || c == '\r' || c == '\n'

/-- One iteration of the symbol loop of LoadProgram: tokenize the line
with strtok at commas, run the sixteen interface-name tests, then the
cycle-time check.  cView is the line as the C string looks after strtok
wrote its NUL terminator (the original line truncated at the first comma
after the symbol token); the cycle check reads it from offset 7.
Every exit(-1) path is none. -/
def processSymbolLine (st : GName → Int) (line : List Char) : Option (GName → Int) :=
  let lead := line.takeWhile (fun c => c == ',')
  let l1 := line.dropWhile (fun c => c == ',')
  if l1 = [] then none
  else
    let symbol := l1.takeWhile (fun c => c != ',')
    let rest := l1.dropWhile (fun c => c != ',')
    let addr : Option (List Char) :=
      match rest with
      | [] => none
      | _ :: r =>
        let r2 := r.dropWhile symDelim
        if r2 = [] then none else some (r2.takeWhile (fun c => symDelim c = false))
    let cView := lead ++ symbol
    match procGpio symbol addr st with
    | none => none
    | some st1 =>
      if strstrB cView (strL ("$$cycle")) then
        if atoiChars (cView.drop 7) = 10 * 1000 then some st1 else none
      else some st1

/-- The while(fgets(...)) symbol loop: process every remaining line. -/
def loadSymbols (st : GName → Int) : List (List Char) → Option (GName → Int)
  | [] => some st
  | l :: rest => (processSymbolLine st l).bind (fun st1 => loadSymbols st1 rest)

/-- The initial values of the interface variables (all set to -1). -/
def initSym : GName → Int := fun _ => -1

/-- LoadProgram of src/ldpi.c over the lines of the input file: check the
header marker, decode the code section, then run the symbol loop.
Every BadFormat or exit(-1) is none: the load has no half-done result. -/
def LoadProgram (input : List (List Char)) : Option (List BinOp × (GName → Int)) :=
  match input with
  | [] => none
  | first :: rest =>
    if strstrB first (strL ("$$LDcode")) = false then none
    else
      match loadCode rest with
      | none => none
      | some (prog, symLines) =>
        match loadSymbols initSym symLines with
        | none => none
        | some st => some (prog, st)

/-- Hex rendering of printf with a zero-padded minimum width (as in the
format directives of Disassemble). -/
def padHex (w : Nat) (n : Nat) : String :=
  let d := Nat.toDigits 16 n
  String.mk (List.replicate (w - d.length) '0' ++ d)

/-- The value an SWORD shows when printed with an unsigned hex directive
(promoted to 32-bit int, reinterpreted as unsigned). -/
def uhex32 (n : Int) : Nat := (n % 4294967296).toNat

/-- One arm of the Disassemble switch for every opcode except
INT_END_OF_PROGRAM (which returns from the loop and is handled by
DisassembleFrom); the default arm (BadFormat) is none.  Each line carries
the pc prefix and the trailing newline the loop prints. -/
def disasmLine (pc : Nat) (p : BinOp) : Option String :=
  let pre := padHex 3 pc ++ ": "
  let condSuffix := " jump " ++ padHex 3 p.name3 ++ "+1"
  if p.op = INT_SET_BIT then
    some (pre ++ "bits[" ++ padHex 3 p.name1 ++ "] := 1" ++ "\n")
  else if p.op = INT_CLEAR_BIT then
    some (pre ++ "bits[" ++ padHex 3 p.name1 ++ "] := 0" ++ "\n")
  else if p.op = INT_COPY_BIT_TO_BIT then
    some (pre ++ "bits[" ++ padHex 3 p.name1 ++ "] := bits[" ++ padHex 3 p.name2 ++ "]" ++ "\n")
  else if p.op = INT_SET_VARIABLE_TO_LITERAL then
    some (pre ++ "int16s[" ++ padHex 3 p.name1 ++ "] := " ++ toString p.literal ++
      " (0x" ++ padHex 4 (uhex32 p.literal) ++ ")" ++ "\n")
  else if p.op = INT_SET_VARIABLE_TO_VARIABLE then
    some (pre ++ "int16s[" ++ padHex 3 p.name1 ++ "] := int16s[" ++ padHex 3 p.name2 ++ "]" ++ "\n")
  else if p.op = INT_INCREMENT_VARIABLE then
    some (pre ++ "(int16s[" ++ padHex 3 p.name1 ++ "])++" ++ "\n")
  else if p.op = INT_SET_VARIABLE_ADD then
    some (pre ++ "int16s[" ++ padHex 3 p.name1 ++ "] := int16s[" ++ padHex 3 p.name2 ++
      "] + int16s[" ++ padHex 3 p.name3 ++ "]" ++ "\n")
  else if p.op = INT_SET_VARIABLE_SUBTRACT then
    some (pre ++ "int16s[" ++ padHex 3 p.name1 ++ "] := int16s[" ++ padHex 3 p.name2 ++
      "] - int16s[" ++ padHex 3 p.name3 ++ "]" ++ "\n")
  else if p.op = INT_SET_VARIABLE_MULTIPLY then
    some (pre ++ "int16s[" ++ padHex 3 p.name1 ++ "] := int16s[" ++ padHex 3 p.name2 ++
      "] * int16s[" ++ padHex 3 p.name3 ++ "]" ++ "\n")
  else if p.op = INT_SET_VARIABLE_DIVIDE then
    some (pre ++ "int16s[" ++ padHex 3 p.name1 ++ "] := int16s[" ++ padHex 3 p.name2 ++
      "] / int16s[" ++ padHex 3 p.name3 ++ "]" ++ "\n")
  else if p.op = INT_IF_BIT_SET then
    some (pre ++ "unless (bits[" ++ padHex 3 p.name1 ++ "] set)" ++ condSuffix ++ "\n")
  else if p.op = INT_IF_BIT_CLEAR then
    some (pre ++ "unless (bits[" ++ padHex 3 p.name1 ++ "] clear)" ++ condSuffix ++ "\n")
  else if p.op = INT_IF_VARIABLE_LES_LITERAL then
    some (pre ++ "unless (int16s[" ++ padHex 3 p.name1 ++ "] < " ++ toString p.literal ++ ")" ++
      condSuffix ++ "\n")
  else if p.op = INT_IF_VARIABLE_EQUALS_VARIABLE then
    some (pre ++ "unless (int16s[" ++ padHex 3 p.name1 ++ "] == int16s[" ++ padHex 3 p.name2 ++
      "])" ++ condSuffix ++ "\n")
  else if p.op = INT_IF_VARIABLE_GRT_VARIABLE then
    some (pre ++ "unless (int16s[" ++ padHex 3 p.name1 ++ "] > int16s[" ++ padHex 3 p.name2 ++
      "])" ++ condSuffix ++ "\n")
  else if p.op = INT_ELSE then
    some (pre ++ "jump " ++ padHex 3 p.name3 ++ "+1" ++ "\n")
  else
    none

/-- The for(pc = 0; ; pc++) loop of Disassemble: one line per instruction,
returning at INT_END_OF_PROGRAM; running past the end of the program
(undefined behaviour in C) and the default BadFormat arm are none. -/
def DisassembleFrom : Nat → List BinOp → Option (List String)
  | _, [] => none
  | pc, p :: rest =>
    if p.op = INT_END_OF_PROGRAM then
      some [padHex 3 pc ++ ": " ++ "<end of program>" ++ "\n"]
    else
      match disasmLine pc p, DisassembleFrom (pc + 1) rest with
      | some l, some ls => some (l :: ls)
      | _, _ => none

/-- Disassemble of src/ldpi.c over an explicit program argument. -/
def Disassemble (prog : List BinOp) : Option (List String) :=
  DisassembleFrom 0 prog

attribute [simp] INT_SET_BIT INT_CLEAR_BIT INT_COPY_BIT_TO_BIT INT_SET_VARIABLE_TO_LITERAL INT_SET_VARIABLE_TO_VARIABLE INT_INCREMENT_VARIABLE INT_SET_VARIABLE_ADD INT_SET_VARIABLE_SUBTRACT INT_SET_VARIABLE_MULTIPLY INT_SET_VARIABLE_DIVIDE INT_IF_BIT_SET INT_IF_BIT_CLEAR INT_IF_VARIABLE_LES_LITERAL INT_IF_VARIABLE_EQUALS_VARIABLE INT_IF_VARIABLE_GRT_VARIABLE INT_ELSE INT_END_OF_PROGRAM

/-- Unfolding of one iteration of the interpreter loop at a fetched
instruction. -/
lemma interpretFrom_succ (fuel pc : Nat) (m : Machine) (p : BinOp)
    (hfetch : m.Program.get? pc = some p) :
    interpretFrom (fuel + 1) pc m =
      match execOp p pc m with
      | .done m1 => some m1
      | .next pc1 m1 => interpretFrom fuel (pc1 + 1) m1 := by
  simp only [interpretFrom, hfetch]

lemma execOp_eq_set_bit (p : BinOp) (pc : Nat) (m : Machine)
    (hop : p.op = INT_SET_BIT) :
    execOp p pc m = .next pc { m with Bits := setBit m.Bits p.name1 true } := by
  simp [execOp, hop]

lemma execOp_eq_clear_bit (p : BinOp) (pc : Nat) (m : Machine)
    (hop : p.op = INT_CLEAR_BIT) :
    execOp p pc m = .next pc { m with Bits := setBit m.Bits p.name1 false } := by
  simp [execOp, hop]

lemma execOp_eq_copy_bit (p : BinOp) (pc : Nat) (m : Machine)
    (hop : p.op = INT_COPY_BIT_TO_BIT) :
    execOp p pc m = .next pc { m with Bits := setBit m.Bits p.name1 (m.Bits p.name2) } := by
  simp [execOp, hop]

lemma execOp_eq_set_literal (p : BinOp) (pc : Nat) (m : Machine)
    (hop : p.op = INT_SET_VARIABLE_TO_LITERAL) :
    execOp p pc m = .next pc { m with Integers := setInt m.Integers p.name1 p.literal } := by
  simp [execOp, hop]

lemma execOp_eq_set_variable (p : BinOp) (pc : Nat) (m : Machine)
    (hop : p.op = INT_SET_VARIABLE_TO_VARIABLE) :
    execOp p pc m = .next pc { m with Integers := setInt m.Integers p.name1 (m.Integers p.name2) } := by
  simp [execOp, hop]

lemma execOp_eq_increment (p : BinOp) (pc : Nat) (m : Machine)
    (hop : p.op = INT_INCREMENT_VARIABLE) :
    execOp p pc m = .next pc
      { m with Integers := setInt m.Integers p.name1 (wrap16 (m.Integers p.name1 + 1)) } := by
  simp [execOp, hop]

lemma execOp_eq_add (p : BinOp) (pc : Nat) (m : Machine)
    (hop : p.op = INT_SET_VARIABLE_ADD) :
    execOp p pc m = .next pc
      { m with Integers := setInt m.Integers p.name1 (wrap16 (m.Integers p.name2 + m.Integers p.name3)) } := by
  simp [execOp, hop]

lemma execOp_eq_subtract (p : BinOp) (pc : Nat) (m : Machine)
    (hop : p.op = INT_SET_VARIABLE_SUBTRACT) :
    execOp p pc m = .next pc
      { m with Integers := setInt m.Integers p.name1 (wrap16 (m.Integers p.name2 - m.Integers p.name3)) } := by
  simp [execOp, hop]

lemma execOp_eq_multiply (p : BinOp) (pc : Nat) (m : Machine)
    (hop : p.op = INT_SET_VARIABLE_MULTIPLY) :
    execOp p pc m = .next pc
      { m with Integers := setInt m.Integers p.name1 (wrap16 (m.Integers p.name2 * m.Integers p.name3)) } := by
  simp [execOp, hop]

lemma execOp_eq_divide (p : BinOp) (pc : Nat) (m : Machine)
    (hop : p.op = INT_SET_VARIABLE_DIVIDE) :
    execOp p pc m = .next pc (if m.Integers p.name3 ≠ 0 then { m with Integers := setInt m.Integers p.name1 (wrap16 (Int.tdiv (m.Integers p.name2) (m.Integers p.name3))) } else m) := by
  simp only [execOp, hop]
  norm_num

lemma execOp_eq_if_bit_set (p : BinOp) (pc : Nat) (m : Machine)
    (hop : p.op = INT_IF_BIT_SET) :
    execOp p pc m = .next (if m.Bits p.name1 = false then p.name3 else pc) m := by
  simp [execOp, hop]

lemma execOp_eq_if_bit_clear (p : BinOp) (pc : Nat) (m : Machine)
    (hop : p.op = INT_IF_BIT_CLEAR) :
    execOp p pc m = .next (if m.Bits p.name1 = true then p.name3 else pc) m := by
  simp [execOp, hop]

lemma execOp_eq_if_les (p : BinOp) (pc : Nat) (m : Machine)
    (hop : p.op = INT_IF_VARIABLE_LES_LITERAL) :
    execOp p pc m = .next (if ¬ (m.Integers p.name1 < p.literal) then p.name3 else pc) m := by
  simp only [execOp, hop]
  norm_num

lemma execOp_eq_if_equals (p : BinOp) (pc : Nat) (m : Machine)
    (hop : p.op = INT_IF_VARIABLE_EQUALS_VARIABLE) :
    execOp p pc m = .next (if ¬ (m.Integers p.name1 = m.Integers p.name2) then p.name3 else pc) m := by
  simp only [execOp, hop]
  norm_num

lemma execOp_eq_if_grt (p : BinOp) (pc : Nat) (m : Machine)
    (hop : p.op = INT_IF_VARIABLE_GRT_VARIABLE) :
    execOp p pc m = .next (if ¬ (m.Integers p.name1 > m.Integers p.name2) then p.name3 else pc) m := by
  simp only [execOp, hop]
  norm_num

lemma execOp_eq_else (p : BinOp) (pc : Nat) (m : Machine)
    (hop : p.op = INT_ELSE) :
    execOp p pc m = .next p.name3 m := by
  simp [execOp, hop]

lemma execOp_eq_end (p : BinOp) (pc : Nat) (m : Machine)
    (hop : p.op = INT_END_OF_PROGRAM) :
    execOp p pc m = .done m := by
  simp [execOp, hop]

/-- An opcode outside the defined set is none of the seventeen values. -/
lemma not_definedOp_cases (w : Nat) (h : definedOp w = false) :
    w ≠ INT_SET_BIT ∧ w ≠ INT_CLEAR_BIT ∧ w ≠ INT_COPY_BIT_TO_BIT ∧
    w ≠ INT_SET_VARIABLE_TO_LITERAL ∧ w ≠ INT_SET_VARIABLE_TO_VARIABLE ∧
    w ≠ INT_INCREMENT_VARIABLE ∧ w ≠ INT_SET_VARIABLE_ADD ∧
    w ≠ INT_SET_VARIABLE_SUBTRACT ∧ w ≠ INT_SET_VARIABLE_MULTIPLY ∧
    w ≠ INT_SET_VARIABLE_DIVIDE ∧ w ≠ INT_IF_BIT_SET ∧ w ≠ INT_IF_BIT_CLEAR ∧
    w ≠ INT_IF_VARIABLE_LES_LITERAL ∧ w ≠ INT_IF_VARIABLE_EQUALS_VARIABLE ∧
    w ≠ INT_IF_VARIABLE_GRT_VARIABLE ∧ w ≠ INT_ELSE ∧ w ≠ INT_END_OF_PROGRAM := by
  simp [definedOp] at h
  simp [h]

/-- The switch of InterpretOneCycle has no default case: an opcode outside
the defined set falls through with no effect at all. -/
lemma execOp_eq_unknown (p : BinOp) (pc : Nat) (m : Machine)
    (hop : definedOp p.op = false) :
    execOp p pc m = .next pc m := by
  obtain ⟨h1, h2, h3, h4, h5, h6, h7, h8, h9, h10, h11, h12, h13, h14, h15, h16, h17⟩ :=
    not_definedOp_cases p.op hop
  simp only [execOp]
  rw [if_neg h1, if_neg h2, if_neg h3, if_neg h4, if_neg h5, if_neg h6, if_neg h7,
    if_neg h8, if_neg h9, if_neg h10, if_neg h11, if_neg h12, if_neg h13, if_neg h14,
    if_neg h15, if_neg h16, if_neg h17]

/-- Program component of a step outcome. -/
def stepProg : StepResult → List BinOp
  | .next _ m => m.Program
  | .done m => m.Program

/-- A defined opcode is one of the seventeen values. -/
lemma definedOp_cases (w : Nat) (hdef : definedOp w = true) :
    w = INT_SET_BIT ∨ w = INT_CLEAR_BIT ∨ w = INT_COPY_BIT_TO_BIT ∨
    w = INT_SET_VARIABLE_TO_LITERAL ∨ w = INT_SET_VARIABLE_TO_VARIABLE ∨
    w = INT_INCREMENT_VARIABLE ∨ w = INT_SET_VARIABLE_ADD ∨
    w = INT_SET_VARIABLE_SUBTRACT ∨ w = INT_SET_VARIABLE_MULTIPLY ∨
    w = INT_SET_VARIABLE_DIVIDE ∨ w = INT_IF_BIT_SET ∨ w = INT_IF_BIT_CLEAR ∨
    w = INT_IF_VARIABLE_LES_LITERAL ∨ w = INT_IF_VARIABLE_EQUALS_VARIABLE ∨
    w = INT_IF_VARIABLE_GRT_VARIABLE ∨ w = INT_ELSE ∨ w = INT_END_OF_PROGRAM := by
  simp [definedOp] at hdef
  simp only [INT_SET_BIT, INT_CLEAR_BIT, INT_COPY_BIT_TO_BIT,
    INT_SET_VARIABLE_TO_LITERAL, INT_SET_VARIABLE_TO_VARIABLE,
    INT_INCREMENT_VARIABLE, INT_SET_VARIABLE_ADD, INT_SET_VARIABLE_SUBTRACT,
    INT_SET_VARIABLE_MULTIPLY, INT_SET_VARIABLE_DIVIDE, INT_IF_BIT_SET,
    INT_IF_BIT_CLEAR, INT_IF_VARIABLE_LES_LITERAL,
    INT_IF_VARIABLE_EQUALS_VARIABLE, INT_IF_VARIABLE_GRT_VARIABLE, INT_ELSE,
    INT_END_OF_PROGRAM]
  tauto

/-- No arm of the interpreter switch writes to the Program array. -/
lemma execOp_stepProg (p : BinOp) (pc : Nat) (m : Machine) :
    stepProg (execOp p pc m) = m.Program := by
  by_cases hdef : definedOp p.op = true
  · rcases definedOp_cases p.op hdef with h|h|h|h|h|h|h|h|h|h|h|h|h|h|h|h|h
    · rw [execOp_eq_set_bit p pc m h]; rfl
    · rw [execOp_eq_clear_bit p pc m h]; rfl
    · rw [execOp_eq_copy_bit p pc m h]; rfl
    · rw [execOp_eq_set_literal p pc m h]; rfl
    · rw [execOp_eq_set_variable p pc m h]; rfl
    · rw [execOp_eq_increment p pc m h]; rfl
    · rw [execOp_eq_add p pc m h]; rfl
    · rw [execOp_eq_subtract p pc m h]; rfl
    · rw [execOp_eq_multiply p pc m h]; rfl
    · rw [execOp_eq_divide p pc m h]
      by_cases hz : m.Integers p.name3 ≠ 0
      · rw [if_pos hz]; rfl
      · rw [if_neg hz]; rfl
    · rw [execOp_eq_if_bit_set p pc m h]; rfl
    · rw [execOp_eq_if_bit_clear p pc m h]; rfl
    · rw [execOp_eq_if_les p pc m h]; rfl
    · rw [execOp_eq_if_equals p pc m h]; rfl
    · rw [execOp_eq_if_grt p pc m h]; rfl
    · rw [execOp_eq_else p pc m h]; rfl
    · rw [execOp_eq_end p pc m h]; rfl
  · rw [execOp_eq_unknown p pc m (by simpa using hdef)]; rfl

/-- The interpreter loop never changes the Program component. -/
lemma interpretFrom_program : ∀ (fuel pc : Nat) (m r : Machine),
    interpretFrom fuel pc m = some r → r.Program = m.Program := by
  intro fuel
  induction fuel with
  | zero =>
    intro pc m r h
    exact absurd h (by simp [interpretFrom])
  | succ n ih =>
    intro pc m r h
    cases hg : m.Program.get? pc with
    | none =>
      simp only [interpretFrom, hg] at h
      exact Option.noConfusion h
    | some p =>
      have hstep := execOp_stepProg p pc m
      simp only [interpretFrom, hg] at h
      cases hE : execOp p pc m with
      | done m1 =>
        rw [hE] at h hstep
        simp only [Option.some.injEq] at h
        subst h
        exact hstep
      | next pc1 m1 =>
        rw [hE] at h hstep
        exact (ih (pc1 + 1) m1 r h).trans hstep

/-- The program containing only the end marker, over zeroed banks. -/
def endOnlyM : Machine :=
  { Program := [⟨INT_END_OF_PROGRAM, 0, 0, 0, 0⟩],
    Integers := fun _ => 0, Bits := fun _ => false }

/-- C8: the Interpreter never mutates the Program: for every Program and
every starting state of the two banks, the instruction sequence after
RunCycle returns is identical to the instruction sequence before. -/
theorem C8_program_immutable (fuel : Nat) (m r : Machine)
    (h : InterpretOneCycle fuel m = some r) : r.Program = m.Program :=
  interpretFrom_program fuel 0 m r h

theorem C8_program_immutable_witness : endOnlyM.Program = endOnlyM.Program :=
  C8_program_immutable 1 endOnlyM endOnlyM (by rfl)

/-- The jump-bias test program of the spec: IF_BIT_SET on bit 0 with
stored (biased) target 1, SET_BIT on bit 1, then the end marker; bit 0
starts at the given value, everything else zero. -/
def jumpM (b : Bool) : Machine :=
  { Program := [⟨INT_IF_BIT_SET, 0, 0, 1, 0⟩, ⟨INT_SET_BIT, 1, 0, 0, 0⟩,
                ⟨INT_END_OF_PROGRAM, 0, 0, 0, 0⟩],
    Integers := fun _ => 0, Bits := fun i => if i = 0 then b else false }

/-- C1: every conditional opcode skips when its condition is false, setting
pc to operand3 so that the automatic increment resumes execution at
operand3 + 1; when the condition is true it falls through to pc + 1; ELSE
assigns pc := operand3 unconditionally.  The concrete jump-bias program
leaves bit 1 clear when bit 0 is false and sets it when bit 0 is true. -/
theorem C1_conditional_jump_semantics :
    (∀ (fuel pc : Nat) (m : Machine) (p : BinOp), m.Program.get? pc = some p →
      ((p.op = INT_IF_BIT_SET → m.Bits p.name1 = false →
          interpretFrom (fuel + 1) pc m = interpretFrom fuel (p.name3 + 1) m) ∧
       (p.op = INT_IF_BIT_SET → m.Bits p.name1 = true →
          interpretFrom (fuel + 1) pc m = interpretFrom fuel (pc + 1) m) ∧
       (p.op = INT_IF_BIT_CLEAR → m.Bits p.name1 = true →
          interpretFrom (fuel + 1) pc m = interpretFrom fuel (p.name3 + 1) m) ∧
       (p.op = INT_IF_BIT_CLEAR → m.Bits p.name1 = false →
          interpretFrom (fuel + 1) pc m = interpretFrom fuel (pc + 1) m) ∧
       (p.op = INT_IF_VARIABLE_LES_LITERAL → ¬ (m.Integers p.name1 < p.literal) →
          interpretFrom (fuel + 1) pc m = interpretFrom fuel (p.name3 + 1) m) ∧
       (p.op = INT_IF_VARIABLE_LES_LITERAL → m.Integers p.name1 < p.literal →
          interpretFrom (fuel + 1) pc m = interpretFrom fuel (pc + 1) m) ∧
       (p.op = INT_IF_VARIABLE_EQUALS_VARIABLE → ¬ (m.Integers p.name1 = m.Integers p.name2) →
          interpretFrom (fuel + 1) pc m = interpretFrom fuel (p.name3 + 1) m) ∧
       (p.op = INT_IF_VARIABLE_EQUALS_VARIABLE → m.Integers p.name1 = m.Integers p.name2 →
          interpretFrom (fuel + 1) pc m = interpretFrom fuel (pc + 1) m) ∧
       (p.op = INT_IF_VARIABLE_GRT_VARIABLE → ¬ (m.Integers p.name1 > m.Integers p.name2) →
          interpretFrom (fuel + 1) pc m = interpretFrom fuel (p.name3 + 1) m) ∧
       (p.op = INT_IF_VARIABLE_GRT_VARIABLE → m.Integers p.name1 > m.Integers p.name2 →
          interpretFrom (fuel + 1) pc m = interpretFrom fuel (pc + 1) m) ∧
       (p.op = INT_ELSE →
          interpretFrom (fuel + 1) pc m = interpretFrom fuel (p.name3 + 1) m))) ∧
    (InterpretOneCycle 3 (jumpM false)).map (fun mm => mm.Bits 1) = some false ∧
    (InterpretOneCycle 3 (jumpM true)).map (fun mm => mm.Bits 1) = some true := by
  refine ⟨?_, by rfl, by rfl⟩
  intro fuel pc m p hfetch
  refine ⟨?_, ?_, ?_, ?_, ?_, ?_, ?_, ?_, ?_, ?_, ?_⟩
  · intro hop hcond
    rw [interpretFrom_succ fuel pc m p hfetch, execOp_eq_if_bit_set p pc m hop]
    simp [hcond]
  · intro hop hcond
    rw [interpretFrom_succ fuel pc m p hfetch, execOp_eq_if_bit_set p pc m hop]
    simp [hcond]
  · intro hop hcond
    rw [interpretFrom_succ fuel pc m p hfetch, execOp_eq_if_bit_clear p pc m hop]
    simp [hcond]
  · intro hop hcond
    rw [interpretFrom_succ fuel pc m p hfetch, execOp_eq_if_bit_clear p pc m hop]
    simp [hcond]
  · intro hop hcond
    rw [interpretFrom_succ fuel pc m p hfetch, execOp_eq_if_les p pc m hop, if_pos hcond]
  · intro hop hcond
    rw [interpretFrom_succ fuel pc m p hfetch, execOp_eq_if_les p pc m hop]
    simp [hcond]
  · intro hop hcond
    rw [interpretFrom_succ fuel pc m p hfetch, execOp_eq_if_equals p pc m hop]
    simp [if_pos hcond]
  · intro hop hcond
    rw [interpretFrom_succ fuel pc m p hfetch, execOp_eq_if_equals p pc m hop]
    simp [hcond]
  · intro hop hcond
    rw [interpretFrom_succ fuel pc m p hfetch, execOp_eq_if_grt p pc m hop, if_pos hcond]
  · intro hop hcond
    rw [interpretFrom_succ fuel pc m p hfetch, execOp_eq_if_grt p pc m hop]
    simp [hcond]
  · intro hop
    rw [interpretFrom_succ fuel pc m p hfetch, execOp_eq_else p pc m hop]

theorem C1_conditional_jump_semantics_witness :
    interpretFrom 3 0 (jumpM false) = interpretFrom 2 2 (jumpM false) :=
  ((C1_conditional_jump_semantics.1 2 0 (jumpM false) ⟨INT_IF_BIT_SET, 0, 0, 1, 0⟩ rfl).1
    rfl rfl)

/-- The division-by-zero test machine of the spec: int bank holds 5 at
address 0 (the dividend), 0 at address 1 (the divisor) and 7 at address 2
(the destination); the program divides 0 by 1 into 2 and ends. -/
def divM : Machine :=
  { Program := [⟨INT_SET_VARIABLE_DIVIDE, 2, 0, 1, 0⟩, ⟨INT_END_OF_PROGRAM, 0, 0, 0, 0⟩],
    Integers := fun i => if i = 0 then 5 else if i = 2 then 7 else 0,
    Bits := fun _ => false }

/-- C3: DIVIDE writes quotient only when the divisor is nonzero; with a
zero divisor the whole machine state is untouched and no error occurs, so
any number of repeated cycles leaves the destination unchanged. -/
theorem C3_divide_semantics :
    (∀ (fuel pc : Nat) (m : Machine) (p : BinOp), m.Program.get? pc = some p →
        p.op = INT_SET_VARIABLE_DIVIDE → m.Integers p.name3 = 0 →
        interpretFrom (fuel + 1) pc m = interpretFrom fuel (pc + 1) m) ∧
    (∀ (fuel pc : Nat) (m : Machine) (p : BinOp), m.Program.get? pc = some p →
        p.op = INT_SET_VARIABLE_DIVIDE → m.Integers p.name3 ≠ 0 →
        interpretFrom (fuel + 1) pc m = interpretFrom fuel (pc + 1)
          { m with Integers := setInt m.Integers p.name1 (wrap16 (Int.tdiv (m.Integers p.name2) (m.Integers p.name3))) }) ∧
    (∀ n : Nat, iterCycle 2 n divM = some divM) ∧
    (∀ n : Nat, (iterCycle 2 n divM).map (fun mm => mm.Integers 2) = some 7) := by
  have hiter : ∀ n : Nat, iterCycle 2 n divM = some divM := by
    intro n
    induction n with
    | zero => rfl
    | succ k ih =>
      have hone : InterpretOneCycle 2 divM = some divM := by rfl
      simp only [iterCycle, hone, Option.bind_some]
      exact ih
  refine ⟨?_, ?_, hiter, ?_⟩
  · intro fuel pc m p hfetch hop hz
    rw [interpretFrom_succ fuel pc m p hfetch, execOp_eq_divide p pc m hop]
    simp [hz]
  · intro fuel pc m p hfetch hop hz
    rw [interpretFrom_succ fuel pc m p hfetch, execOp_eq_divide p pc m hop]
    simp [hz]
  · intro n
    rw [hiter n]
    rfl

theorem C3_divide_semantics_witness :
    interpretFrom 2 0 divM = interpretFrom 1 1 divM :=
  C3_divide_semantics.1 1 0 divM ⟨INT_SET_VARIABLE_DIVIDE, 2, 0, 1, 0⟩ rfl rfl rfl

/-- A machine whose program starts with an instruction carrying the
undefined opcode value 99 and then ends. -/
def unkM : Machine :=
  { Program := [⟨99, 0, 0, 0, 0⟩, ⟨INT_END_OF_PROGRAM, 0, 0, 0, 0⟩],
    Integers := fun _ => 0, Bits := fun _ => false }

theorem C5_counterexample :
    definedOp 99 = false ∧ InterpretOneCycle 2 unkM = some unkM :=
  ⟨by decide, by rfl⟩

/-- C5 (amended): when RunCycle fetches an instruction whose opcode is not
in the defined set, the switch has no default arm, so the instruction is
silently skipped: no bank changes and execution resumes at the next
instruction; no abort happens. -/
theorem C5_unknown_silently_skipped (fuel pc : Nat) (m : Machine) (p : BinOp)
    (hfetch : m.Program.get? pc = some p) (hundef : definedOp p.op = false) :
    interpretFrom (fuel + 1) pc m = interpretFrom fuel (pc + 1) m := by
  rw [interpretFrom_succ fuel pc m p hfetch, execOp_eq_unknown p pc m hundef]

theorem C5_unknown_silently_skipped_witness :
    interpretFrom 2 0 unkM = interpretFrom 1 1 unkM :=
  C5_unknown_silently_skipped 1 0 unkM ⟨99, 0, 0, 0, 0⟩ (by rfl) (by decide)

/-- The arithmetic-wraparound test machine of the spec: the int cell at
address 0 holds 32767 and the program increments it, then ends. -/
def incM : Machine :=
  { Program := [⟨INT_INCREMENT_VARIABLE, 0, 0, 0, 0⟩, ⟨INT_END_OF_PROGRAM, 0, 0, 0, 0⟩],
    Integers := fun i => if i = 0 then 32767 else 0, Bits := fun _ => false }

/-- C6: ADD, SUBTRACT, MULTIPLY and INCREMENT all store their result
through the same two's-complement 16-bit wrap (wrap16); incrementing a
cell holding 32767 yields -32768, on every cycle that does so. -/
theorem C6_wrap_uniform :
    (∀ (fuel pc : Nat) (m : Machine) (p : BinOp), m.Program.get? pc = some p →
      ((p.op = INT_INCREMENT_VARIABLE → interpretFrom (fuel + 1) pc m = interpretFrom fuel (pc + 1)
          { m with Integers := setInt m.Integers p.name1 (wrap16 (m.Integers p.name1 + 1)) }) ∧
       (p.op = INT_SET_VARIABLE_ADD → interpretFrom (fuel + 1) pc m = interpretFrom fuel (pc + 1)
          { m with Integers := setInt m.Integers p.name1 (wrap16 (m.Integers p.name2 + m.Integers p.name3)) }) ∧
       (p.op = INT_SET_VARIABLE_SUBTRACT → interpretFrom (fuel + 1) pc m = interpretFrom fuel (pc + 1)
          { m with Integers := setInt m.Integers p.name1 (wrap16 (m.Integers p.name2 - m.Integers p.name3)) }) ∧
       (p.op = INT_SET_VARIABLE_MULTIPLY → interpretFrom (fuel + 1) pc m = interpretFrom fuel (pc + 1)
          { m with Integers := setInt m.Integers p.name1 (wrap16 (m.Integers p.name2 * m.Integers p.name3)) }))) ∧
    wrap16 (32767 + 1) = -32768 ∧
    (∀ m : Machine, m.Program = incM.Program → m.Integers 0 = 32767 →
        (InterpretOneCycle 2 m).map (fun mm => mm.Integers 0) = some (-32768)) := by
  refine ⟨?_, by decide, ?_⟩
  · intro fuel pc m p hfetch
    refine ⟨?_, ?_, ?_, ?_⟩
    · intro hop
      rw [interpretFrom_succ fuel pc m p hfetch, execOp_eq_increment p pc m hop]
    · intro hop
      rw [interpretFrom_succ fuel pc m p hfetch, execOp_eq_add p pc m hop]
    · intro hop
      rw [interpretFrom_succ fuel pc m p hfetch, execOp_eq_subtract p pc m hop]
    · intro hop
      rw [interpretFrom_succ fuel pc m p hfetch, execOp_eq_multiply p pc m hop]
  · intro m hp hv
    have h0 : m.Program.get? 0 = some ⟨INT_INCREMENT_VARIABLE, 0, 0, 0, 0⟩ := by
      rw [hp]; rfl
    have h1 : m.Program.get? 1 = some ⟨INT_END_OF_PROGRAM, 0, 0, 0, 0⟩ := by
      rw [hp]; rfl
    show (interpretFrom 2 0 m).map (fun mm => mm.Integers 0) = some (-32768)
    rw [interpretFrom_succ 1 0 m ⟨INT_INCREMENT_VARIABLE, 0, 0, 0, 0⟩ h0]
    rw [execOp_eq_increment _ _ _ rfl]
    show (interpretFrom 1 1
      { m with Integers := setInt m.Integers 0 (wrap16 (m.Integers 0 + 1)) }).map
        (fun mm => mm.Integers 0) = some (-32768)
    rw [interpretFrom_succ 0 1
      { m with Integers := setInt m.Integers 0 (wrap16 (m.Integers 0 + 1)) }
      ⟨INT_END_OF_PROGRAM, 0, 0, 0, 0⟩ h1]
    rw [execOp_eq_end _ _ _ rfl]
    simp [setInt, hv]
    decide

theorem C6_wrap_uniform_witness :
    (InterpretOneCycle 2 incM).map (fun mm => mm.Integers 0) = some (-32768) :=
  C6_wrap_uniform.2.2 incM rfl rfl

/-- Forward-jump condition: every jump instruction at index i stores a
target of at least i, so the interpreter's pc strictly increases. -/
def fwdFrom : Nat → List BinOp → Bool
  | _, [] => true
  | i, p :: rest => (!isJump p.op || decide (i ≤ p.name3)) && fwdFrom (i + 1) rest

/-- The last instruction of the program is the end marker. -/
def lastIsEnd (prog : List BinOp) : Bool :=
  match prog.getLast? with
  | some q => q.op = INT_END_OF_PROGRAM
  | none => false

/-- Well-formedness of a Program in the sense of claim C2: every opcode is
in the defined set, every stored jump target makes the landing index
(stored + 1) a valid instruction index, and the program ends with the end
marker. -/
def WFb (prog : List BinOp) : Bool :=
  prog.all (fun p => definedOp p.op &&
    (!isJump p.op || decide (p.name3 + 1 < prog.length))) && lastIsEnd prog

lemma fwdFrom_get : ∀ (l : List BinOp) (i j : Nat) (p : BinOp),
    fwdFrom i l = true → l.get? j = some p → isJump p.op = true → i + j ≤ p.name3 := by
  intro l
  induction l with
  | nil =>
    intro i j p _ hg _
    exact absurd hg (by simp)
  | cons q rest ih =>
    intro i j p hf hg hj
    rw [fwdFrom, Bool.and_eq_true] at hf
    cases j with
    | zero =>
      have hqp : q = p := by simpa using hg
      subst hqp
      have h1 := hf.1
      rw [hj] at h1
      have : i ≤ q.name3 := by simpa using h1
      omega
    | succ k =>
      have := ih (i + 1) k p hf.2 (by simpa using hg) hj
      omega

lemma WFb_get (prog : List BinOp) (h : WFb prog = true) (j : Nat) (p : BinOp)
    (hj : prog.get? j = some p) :
    definedOp p.op = true ∧ (isJump p.op = true → p.name3 + 1 < prog.length) := by
  rw [WFb, Bool.and_eq_true] at h
  have hmem : p ∈ prog := List.get?_mem hj
  have hall := List.all_eq_true.mp h.1 p hmem
  rw [Bool.and_eq_true] at hall
  refine ⟨hall.1, fun hj2 => ?_⟩
  have h2 := hall.2
  rw [hj2] at h2
  simpa using h2

lemma lastIsEnd_lt (prog : List BinOp) (h : lastIsEnd prog = true) (j : Nat) (p : BinOp)
    (hj : prog.get? j = some p) (hne : p.op ≠ INT_END_OF_PROGRAM) :
    j + 1 < prog.length := by
  have hlen : j < prog.length := by
    by_contra hc
    rw [List.get?_eq_none.mpr (by omega)] at hj
    exact Option.noConfusion hj
  by_contra hc
  have hj2 : j = prog.length - 1 := by omega
  cases hq : prog.getLast? with
  | none =>
    rw [lastIsEnd, hq] at h
    exact Bool.noConfusion h
  | some q =>
    rw [lastIsEnd, hq] at h
    have hqend : q.op = INT_END_OF_PROGRAM := by simpa using h
    have hlast : prog.get? (prog.length - 1) = some q := by
      rw [← List.getLast?_eq_get?]
      exact hq
    rw [← hj2, hj] at hlast
    injection hlast with hpq
    exact hne (hpq ▸ hqend)

lemma lastIsEnd_pos (prog : List BinOp) (h : lastIsEnd prog = true) :
    0 < prog.length := by
  cases prog with
  | nil => exact Bool.noConfusion h
  | cons a l => simp

/-- Every defined opcode other than the end marker falls out of the switch,
leaves the Program unchanged, and leaves pc either where it was or at the
stored jump target of a jump instruction. -/
lemma execOp_next_cases (p : BinOp) (pc : Nat) (m : Machine)
    (hdef : definedOp p.op = true) (hne : p.op ≠ INT_END_OF_PROGRAM) :
    ∃ pc1 m1, execOp p pc m = .next pc1 m1 ∧ m1.Program = m.Program ∧
      (pc1 = pc ∨ (isJump p.op = true ∧ pc1 = p.name3)) := by
  rcases definedOp_cases p.op hdef with h|h|h|h|h|h|h|h|h|h|h|h|h|h|h|h|h
  · exact ⟨pc, _, execOp_eq_set_bit p pc m h, rfl, Or.inl rfl⟩
  · exact ⟨pc, _, execOp_eq_clear_bit p pc m h, rfl, Or.inl rfl⟩
  · exact ⟨pc, _, execOp_eq_copy_bit p pc m h, rfl, Or.inl rfl⟩
  · exact ⟨pc, _, execOp_eq_set_literal p pc m h, rfl, Or.inl rfl⟩
  · exact ⟨pc, _, execOp_eq_set_variable p pc m h, rfl, Or.inl rfl⟩
  · exact ⟨pc, _, execOp_eq_increment p pc m h, rfl, Or.inl rfl⟩
  · exact ⟨pc, _, execOp_eq_add p pc m h, rfl, Or.inl rfl⟩
  · exact ⟨pc, _, execOp_eq_subtract p pc m h, rfl, Or.inl rfl⟩
  · exact ⟨pc, _, execOp_eq_multiply p pc m h, rfl, Or.inl rfl⟩
  · refine ⟨pc, _, execOp_eq_divide p pc m h, ?_, Or.inl rfl⟩
    by_cases hz : m.Integers p.name3 ≠ 0
    · rw [if_pos hz]
    · rw [if_neg hz]
  · by_cases hb : m.Bits p.name1 = false
    · exact ⟨p.name3, m, by rw [execOp_eq_if_bit_set p pc m h, if_pos hb], rfl,
        Or.inr ⟨by simp [isJump, h], rfl⟩⟩
    · exact ⟨pc, m, by rw [execOp_eq_if_bit_set p pc m h, if_neg hb], rfl, Or.inl rfl⟩
  · by_cases hb : m.Bits p.name1 = true
    · exact ⟨p.name3, m, by rw [execOp_eq_if_bit_clear p pc m h, if_pos hb], rfl,
        Or.inr ⟨by simp [isJump, h], rfl⟩⟩
    · exact ⟨pc, m, by rw [execOp_eq_if_bit_clear p pc m h, if_neg hb], rfl, Or.inl rfl⟩
  · by_cases hb : ¬ (m.Integers p.name1 < p.literal)
    · exact ⟨p.name3, m, by rw [execOp_eq_if_les p pc m h, if_pos hb], rfl,
        Or.inr ⟨by simp [isJump, h], rfl⟩⟩
    · exact ⟨pc, m, by rw [execOp_eq_if_les p pc m h, if_neg hb], rfl, Or.inl rfl⟩
  · by_cases hb : ¬ (m.Integers p.name1 = m.Integers p.name2)
    · exact ⟨p.name3, m, by rw [execOp_eq_if_equals p pc m h, if_pos hb], rfl,
        Or.inr ⟨by simp [isJump, h], rfl⟩⟩
    · exact ⟨pc, m, by rw [execOp_eq_if_equals p pc m h, if_neg hb], rfl, Or.inl rfl⟩
  · by_cases hb : ¬ (m.Integers p.name1 > m.Integers p.name2)
    · exact ⟨p.name3, m, by rw [execOp_eq_if_grt p pc m h, if_pos hb], rfl,
        Or.inr ⟨by simp [isJump, h], rfl⟩⟩
    · exact ⟨pc, m, by rw [execOp_eq_if_grt p pc m h, if_neg hb], rfl, Or.inl rfl⟩
  · exact ⟨p.name3, m, execOp_eq_else p pc m h, rfl, Or.inr ⟨by simp [isJump, h], rfl⟩⟩
  · exact absurd h hne

lemma interpretFrom_terminates : ∀ (k pc : Nat) (m : Machine),
    WFb m.Program = true → fwdFrom 0 m.Program = true →
    pc < m.Program.length → m.Program.length ≤ k + pc →
    ∃ r, interpretFrom k pc m = some r := by
  intro k
  induction k with
  | zero =>
    intro pc m _ _ h1 h2
    omega
  | succ n ih =>
    intro pc m hwf hfwd hlt hle
    obtain ⟨p, hp⟩ : ∃ p, m.Program.get? pc = some p := by
      cases hg : m.Program.get? pc with
      | none =>
        rw [List.get?_eq_none] at hg
        omega
      | some p => exact ⟨p, rfl⟩
    have hdef := WFb_get m.Program hwf pc p hp
    by_cases hend : p.op = INT_END_OF_PROGRAM
    · refine ⟨m, ?_⟩
      rw [interpretFrom_succ n pc m p hp, execOp_eq_end p pc m hend]
    · have hlast : lastIsEnd m.Program = true := by
        rw [WFb, Bool.and_eq_true] at hwf
        exact hwf.2
      have hpc1 : pc + 1 < m.Program.length := lastIsEnd_lt m.Program hlast pc p hp hend
      obtain ⟨pc1, m1, hE, hprog, hcases⟩ := execOp_next_cases p pc m hdef.1 hend
      rw [interpretFrom_succ n pc m p hp, hE]
      have hge : pc ≤ pc1 := by
        rcases hcases with h | ⟨hj, h⟩
        · omega
        · have := fwdFrom_get m.Program 0 pc p hfwd hp hj
          omega
      have hlt1 : pc1 + 1 < m.Program.length := by
        rcases hcases with h | ⟨hj, h⟩
        · omega
        · have := hdef.2 hj
          omega
      exact ih (pc1 + 1) m1 (by rw [hprog]; exact hwf) (by rw [hprog]; exact hfwd)
        (by rw [hprog]; omega) (by rw [hprog]; omega)

/-- C2 (amended): for every well-formed Program whose jumps additionally
never land behind their own instruction, RunCycle reaches the end marker
within program-length steps. -/
theorem C2_runcycle_terminates (m : Machine)
    (hwf : WFb m.Program = true) (hfwd : fwdFrom 0 m.Program = true) :
    ∃ r, InterpretOneCycle m.Program.length m = some r := by
  have hpos : 0 < m.Program.length := by
    apply lastIsEnd_pos
    rw [WFb, Bool.and_eq_true] at hwf
    exact hwf.2
  exact interpretFrom_terminates m.Program.length 0 m hwf hfwd hpos (by omega)

theorem C2_runcycle_terminates_witness :
    ∃ r, InterpretOneCycle (jumpM false).Program.length (jumpM false) = some r :=
  C2_runcycle_terminates (jumpM false) (by rfl) (by rfl)

/-- A program that is well-formed in the sense of claim C2 (defined
opcodes, valid jump target, ends with the end marker) but loops forever:
its ELSE at index 1 stores target 0, so execution resumes at index 1
forever. -/
def loopM : Machine :=
  { Program := [⟨INT_SET_BIT, 0, 0, 0, 0⟩, ⟨INT_ELSE, 0, 0, 0, 0⟩,
                ⟨INT_END_OF_PROGRAM, 0, 0, 0, 0⟩],
    Integers := fun _ => 0, Bits := fun _ => false }

lemma loopM_stuck : ∀ (fuel : Nat) (m : Machine), m.Program = loopM.Program →
    interpretFrom fuel 1 m = none := by
  intro fuel
  induction fuel with
  | zero =>
    intro m _
    rfl
  | succ n ih =>
    intro m hm
    have hp : m.Program.get? 1 = some ⟨INT_ELSE, 0, 0, 0, 0⟩ := by rw [hm]; rfl
    rw [interpretFrom_succ n 1 m ⟨INT_ELSE, 0, 0, 0, 0⟩ hp, execOp_eq_else _ _ _ rfl]
    exact ih m hm

theorem C2_counterexample :
    WFb loopM.Program = true ∧
    ¬ ∃ (fuel : Nat) (r : Machine), InterpretOneCycle fuel loopM = some r := by
  refine ⟨by rfl, ?_⟩
  rintro ⟨fuel, r, h⟩
  cases fuel with
  | zero => exact Option.noConfusion h
  | succ n =>
    rw [InterpretOneCycle, interpretFrom_succ n 0 loopM ⟨INT_SET_BIT, 0, 0, 0, 0⟩ rfl,
      execOp_eq_set_bit _ _ _ rfl] at h
    have h2 : interpretFrom n 1 { loopM with Bits := setBit loopM.Bits 0 true } = some r := h
    rw [loopM_stuck n { loopM with Bits := setBit loopM.Bits 0 true } rfl] at h2
    exact Option.noConfusion h2

/-- Index of the first end marker of a program. -/
def endIdx (prog : List BinOp) : Nat :=
  prog.findIdx (fun p => p.op == INT_END_OF_PROGRAM)

lemma disasmLine_isSome (pc : Nat) (p : BinOp) (hdef : definedOp p.op = true)
    (hne : p.op ≠ INT_END_OF_PROGRAM) : (disasmLine pc p).isSome = true := by
  rcases definedOp_cases p.op hdef with h|h|h|h|h|h|h|h|h|h|h|h|h|h|h|h|h <;>
    first
    | exact absurd h hne
    | simp [disasmLine, h]

lemma disassembleFrom_length : ∀ (prog : List BinOp) (pc : Nat),
    prog.all (fun p => definedOp p.op) = true →
    prog.any (fun p => p.op == INT_END_OF_PROGRAM) = true →
    ∃ ls, DisassembleFrom pc prog = some ls ∧ ls.length = endIdx prog + 1 := by
  intro prog
  induction prog with
  | nil =>
    intro pc _ hany
    simp at hany
  | cons p rest ih =>
    intro pc hall hany
    rw [List.all_cons, Bool.and_eq_true] at hall
    by_cases hend : p.op = INT_END_OF_PROGRAM
    · refine ⟨[padHex 3 pc ++ ": " ++ "<end of program>" ++ "\n"], ?_, ?_⟩
      · simp only [DisassembleFrom]
        rw [if_pos hend]
      · simp [endIdx, List.findIdx_cons, hend]
    · have hany2 : rest.any (fun p => p.op == INT_END_OF_PROGRAM) = true := by
        rw [List.any_cons, Bool.or_eq_true] at hany
        rcases hany with h | h
        · exact absurd (by simpa using h) hend
        · exact h
      obtain ⟨l, hl⟩ := Option.isSome_iff_exists.mp (disasmLine_isSome pc p hall.1 hend)
      obtain ⟨ls, hls, hlen⟩ := ih (pc + 1) hall.2 hany2
      refine ⟨l :: ls, ?_, ?_⟩
      · simp only [DisassembleFrom]
        rw [if_neg hend, hl, hls]
      · have hfalse : (p.op == INT_END_OF_PROGRAM) = false := by
          simp only [beq_eq_false_iff_ne, ne_eq]
          exact hend
        rw [List.length_cons, hlen, endIdx, endIdx, List.findIdx_cons, hfalse, cond_false]

/-- C9: Disassemble is a total pure function on well-formed Programs: it
produces one line per instruction, up to and including the first end
marker, and (being a function of the Program alone) gives the same output
on every run. -/
theorem C9_disassemble_one_line_per_op (prog : List BinOp)
    (hdef : prog.all (fun p => definedOp p.op) = true)
    (hend : prog.any (fun p => p.op == INT_END_OF_PROGRAM) = true) :
    ∃ lines, Disassemble prog = some lines ∧ lines.length = endIdx prog + 1 :=
  disassembleFrom_length prog 0 hdef hend

theorem C9_disassemble_one_line_per_op_witness :
    ∃ lines, Disassemble [⟨INT_SET_BIT, 3, 0, 0, 0⟩, ⟨INT_END_OF_PROGRAM, 0, 0, 0, 0⟩] = some lines ∧
      lines.length = endIdx [⟨INT_SET_BIT, 3, 0, 0, 0⟩, ⟨INT_END_OF_PROGRAM, 0, 0, 0, 0⟩] + 1 :=
  C9_disassemble_one_line_per_op _ (by rfl) (by rfl)

/-- The line as the C string looks after strtok wrote its NUL terminator:
the original line truncated at the first comma at or after the symbol
token (the $$cycle check of LoadProgram reads this view from offset 7). -/
def cViewOf (line : List Char) : List Char :=
  line.takeWhile (fun c => c == ',') ++
    (line.dropWhile (fun c => c == ',')).takeWhile (fun c => c != ',')

lemma processSymbolLine_cycle_fail (st : GName → Int) (line : List Char)
    (hcyc : strstrB (cViewOf line) (strL ("$$cycle")) = true)
    (hval : atoiChars ((cViewOf line).drop 7) ≠ 10 * 1000) :
    processSymbolLine st line = none := by
  rw [cViewOf] at hcyc hval
  simp only [processSymbolLine]
  by_cases h1 : line.dropWhile (fun c => c == ',') = []
  · rw [if_pos h1]
  · rw [if_neg h1]
    split
    · rfl
    · rw [if_pos hcyc, if_neg hval]

lemma loadSymbols_fail : ∀ (lines : List (List Char)) (st : GName → Int) (line : List Char),
    line ∈ lines → (∀ st1, processSymbolLine st1 line = none) →
    loadSymbols st lines = none := by
  intro lines
  induction lines with
  | nil =>
    intro st line hmem _
    exact absurd hmem (by simp)
  | cons l rest ih =>
    intro st line hmem hfail
    rcases List.mem_cons.mp hmem with h | h
    · subst h
      simp only [loadSymbols, hfail st, Option.none_bind]
    · cases hP : processSymbolLine st l with
      | none => simp only [loadSymbols, hP, Option.none_bind]
      | some st1 =>
        simp only [loadSymbols, hP, Option.some_bind]
        exact ih st1 line h hfail

/-- C10: LoadProgram rejects the whole input, leaving nothing half-loaded, when
a cycle-declaration line of the symbol section declares a compiled cycle
time (as parsed by atoi from offset 7 of the truncated line) different
from 10000 microseconds, no matter how well-formed the rest is. -/
theorem C10_cycle_time_enforced (first : List Char) (rest : List (List Char))
    (ops : List BinOp) (symLines : List (List Char)) (line : List Char)
    (hcode : loadCode rest = some (ops, symLines))
    (hmem : line ∈ symLines)
    (hcyc : strstrB (cViewOf line) (strL ("$$cycle")) = true)
    (hval : atoiChars ((cViewOf line).drop 7) ≠ 10 * 1000) :
    LoadProgram (first :: rest) = none := by
  simp only [LoadProgram, hcode]
  by_cases hh : strstrB first (strL ("$$LDcode")) = false
  · rw [if_pos hh]
  · rw [if_neg hh, loadSymbols_fail symLines initSym line hmem
      (fun st1 => processSymbolLine_cycle_fail st1 line hcyc hval)]

theorem C10_cycle_time_enforced_witness :
    LoadProgram [strL ("$$LDcode"), strL ("$$bits"), strL ("$$cycle 5000")] = none :=
  C10_cycle_time_enforced (strL ("$$LDcode")) [strL ("$$bits"), strL ("$$cycle 5000")]
    [] [strL ("$$cycle 5000")] (strL ("$$cycle 5000"))
    (by rfl) (by simp) (by rfl) (by decide)

theorem C7_counterexample :
    (loadSymbols initSym [strL ("X,5")]).map (fun st => gnameList.map st) =
      some (gnameList.map initSym) ∧
    loadSymbols initSym [strL ("garbage")] = some initSym := by
  exact ⟨by rfl, by rfl⟩

/-- Symbol token of a line: what the first strtok call returns (the line
past any leading commas, up to the next comma). -/
def symTokOf (line : List Char) : List Char :=
  (line.dropWhile (fun c => c == ',')).takeWhile (fun c => c != ',')

/-- Address token of a line: what the second strtok call returns (the text
after the symbol token, past leading delimiters, up to the next
delimiter); none when the line has no such token. -/
def addrTokOf (line : List Char) : Option (List Char) :=
  match (line.dropWhile (fun c => c == ',')).dropWhile (fun c => c != ',') with
  | [] => none
  | _ :: r =>
    if r.dropWhile symDelim = [] then none
    else some ((r.dropWhile symDelim).takeWhile (fun c => symDelim c = false))

/-- One symbol-loop iteration on a line with a symbol token: the sixteen
interface-name tests on the two tokens, then the cycle check on the
truncated line. -/
lemma processSymbolLine_struct (st : GName → Int) (line : List Char)
    (h1 : line.dropWhile (fun c => c == ',') ≠ []) :
    processSymbolLine st line =
      match procGpio (symTokOf line) (addrTokOf line) st with
      | none => none
      | some st1 =>
        if strstrB (cViewOf line) (strL ("$$cycle")) = true then
          if atoiChars ((cViewOf line).drop 7) = 10 * 1000 then some st1 else none
        else some st1 := by
  simp only [processSymbolLine, symTokOf, addrTokOf, cViewOf]
  rw [if_neg h1]

lemma takeWhile_append_cons (p : Char → Bool) (d : Char) (a : List Char)
    (hd : p d = false) : ∀ s : List Char, (∀ c ∈ s, p c = true) →
    List.takeWhile p (s ++ d :: a) = s := by
  intro s
  induction s with
  | nil =>
    intro _
    simp [List.takeWhile_cons, hd]
  | cons c t ih =>
    intro h
    simp [List.takeWhile_cons, h c (by simp), ih (fun x hx => h x (by simp [hx]))]

lemma dropWhile_append_cons (p : Char → Bool) (d : Char) (a : List Char)
    (hd : p d = false) : ∀ s : List Char, (∀ c ∈ s, p c = true) →
    List.dropWhile p (s ++ d :: a) = d :: a := by
  intro s
  induction s with
  | nil =>
    intro _
    simp [List.dropWhile_cons, hd]
  | cons c t ih =>
    intro h
    simp [List.dropWhile_cons, h c (by simp), ih (fun x hx => h x (by simp [hx]))]

/-- A line of the shape symbol,address (comma-free nonempty symbol token,
nonempty delimiter-free address token, no cycle marker in the symbol)
assigns atoi(address) to exactly the interface variables whose name occurs
inside the symbol token. -/
lemma processSymbolLine_named (st : GName → Int) (sym a : List Char)
    (hs : sym ≠ []) (hsc : ∀ c ∈ sym, (c == ',') = false)
    (hcyc : strstrB sym (strL ("$$cycle")) = false)
    (ha : a ≠ []) (hdelim : ∀ c ∈ a, symDelim c = false) :
    processSymbolLine st (sym ++ ',' :: a) =
      some (fun g => if strstrB sym (gpat g) then atoiChars a else st g) := by
  obtain ⟨c0, s0, rfl⟩ := List.exists_cons_of_ne_nil hs
  obtain ⟨ca, ta, rfl⟩ := List.exists_cons_of_ne_nil ha
  have hc0 : (c0 == ',') = false := hsc c0 (by simp)
  have hca : symDelim ca = false := hdelim ca (by simp)
  have hsymtrue : ∀ c ∈ c0 :: s0, (c != ',') = true := by
    intro c hc
    simp [bne, hsc c hc]
  have hl1 : List.dropWhile (fun c => c == ',') ((c0 :: s0) ++ ',' :: ca :: ta) =
      (c0 :: s0) ++ ',' :: ca :: ta := by
    simp [List.dropWhile_cons, hc0]
  have h1 : List.dropWhile (fun c => c == ',') ((c0 :: s0) ++ ',' :: ca :: ta) ≠ [] := by
    rw [hl1]
    simp
  have hsymtok : symTokOf ((c0 :: s0) ++ ',' :: ca :: ta) = c0 :: s0 := by
    rw [symTokOf, hl1]
    exact takeWhile_append_cons _ ',' (ca :: ta) (by decide) (c0 :: s0) hsymtrue
  have hrest : List.dropWhile (fun c => c != ',')
      (List.dropWhile (fun c => c == ',') ((c0 :: s0) ++ ',' :: ca :: ta)) = ',' :: ca :: ta := by
    rw [hl1]
    exact dropWhile_append_cons _ ',' (ca :: ta) (by decide) (c0 :: s0) hsymtrue
  have haddr : addrTokOf ((c0 :: s0) ++ ',' :: ca :: ta) = some (ca :: ta) := by
    rw [addrTokOf, hrest]
    have hdrop : List.dropWhile symDelim (ca :: ta) = ca :: ta := by
      simp [List.dropWhile_cons, hca]
    have htake : List.takeWhile (fun x => symDelim x = false) (ca :: ta) = ca :: ta := by
      rw [List.takeWhile_eq_self_iff]
      intro x hx
      simp [hdelim x hx]
    show (if List.dropWhile symDelim (ca :: ta) = [] then none
      else some (List.takeWhile (fun c => symDelim c = false)
        (List.dropWhile symDelim (ca :: ta)))) = some (ca :: ta)
    rw [hdrop, htake, if_neg (by simp)]
  have hlead : List.takeWhile (fun c => c == ',') ((c0 :: s0) ++ ',' :: ca :: ta) = [] := by
    simp [List.takeWhile_cons, hc0]
  have hcv : cViewOf ((c0 :: s0) ++ ',' :: ca :: ta) = c0 :: s0 := by
    rw [cViewOf, hl1, hlead, List.nil_append]
    exact takeWhile_append_cons _ ',' (ca :: ta) (by decide) (c0 :: s0) hsymtrue
  rw [processSymbolLine_struct st _ h1, hsymtok, haddr, hcv]
  simp only [procGpio]
  rw [hcyc]
  rfl

/-- When no interface name occurs in the symbol token, the sixteen tests
leave the state untouched, whether or not an address token exists. -/
lemma procGpio_no_match (symbol : List Char) (addr : Option (List Char))
    (st : GName → Int) (hno : ∀ g : GName, strstrB symbol (gpat g) = false) :
    procGpio symbol addr st = some st := by
  cases addr with
  | some a =>
    simp only [procGpio]
    refine congrArg some ?_
    funext g
    rw [hno g]
    rfl
  | none =>
    simp only [procGpio]
    have hany : (gnameList.any fun g => strstrB symbol (gpat g)) = false := by
      rw [List.any_eq_false]
      intro g _
      simp [hno g]
    rw [hany]
    rfl

/-- Claim C7 (amended): symbol-line processing is a pure function of the
name,address lines, but it builds no general name-to-address mapping: for
each of the sixteen fixed interface names GPI0..GPI7, GPO0..GPO7, a line
NAME,addr assigns atoi(addr) to exactly that name's variable (the code
matches names by substring search of the symbol token); every line whose
symbol token exists but contains none of the sixteen names and no cycle
marker is ignored, with no error and no effect.  Outside that: a line
with no symbol token at all (only commas), or a matched name whose
address token is missing, drives the C into NULL-pointer calls (fatal),
and a bad cycle declaration aborts the load. -/
theorem C7_symbols_fixed_names :
    (∀ (g : GName) (st : GName → Int) (a : List Char), a ≠ [] →
        (∀ c ∈ a, symDelim c = false) →
        processSymbolLine st (gpat g ++ ',' :: a) =
          some (fun g2 => if g2 = g then atoiChars a else st g2)) ∧
    (∀ (st : GName → Int) (line : List Char),
        line.dropWhile (fun c => c == ',') ≠ [] →
        (∀ g : GName, strstrB (symTokOf line) (gpat g) = false) →
        strstrB (cViewOf line) (strL ("$$cycle")) = false →
        processSymbolLine st line = some st) := by
  constructor
  · intro g st a ha hdelim
    rw [processSymbolLine_named st (gpat g) a (by cases g <;> decide)
      (by cases g <;> decide) (by cases g <;> rfl) ha hdelim]
    refine congrArg some ?_
    funext g2
    cases g <;> cases g2 <;> rfl
  · intro st line h1 hno hcyc
    rw [processSymbolLine_struct st line h1, procGpio_no_match _ _ st hno, hcyc]
    rfl

theorem C7_symbols_fixed_names_witness :
    processSymbolLine initSym (gpat GName.GPI5 ++ ',' :: strL ("7")) =
      some (fun g2 => if g2 = GName.GPI5 then atoiChars (strL ("7")) else initSym g2) ∧
    processSymbolLine initSym (strL ("hello")) = some initSym :=
  ⟨C7_symbols_fixed_names.1 GName.GPI5 initSym (strL ("7")) (by decide) (by decide),
   C7_symbols_fixed_names.2 initSym (strL ("hello")) (by decide)
     (by intro g; cases g <;> rfl) (by rfl)⟩

/-- Hex character of a nibble, lowercase, as the .int encoder writes. -/
def hexChar (n : Nat) : Char := if n < 10 then Char.ofNat (n + 48) else Char.ofNat (n + 87)

/-- Hex record text for a byte list: two characters per byte, high nibble
first, as the code lines of a .int file. -/
def encodeBytes (bs : List Nat) : List Char :=
  bs.bind (fun b => [hexChar (b / 16), hexChar (b % 16)])

lemma hexDigit_hexChar : ∀ n < 16, HexDigit (hexChar n) = some n := by decide

lemma hexChar_ne_dollar : ∀ m, m < 16 → hexChar m ≠ ('$' : Char) := by decide

lemma parseBytes_encodeBytes : ∀ (bs : List Nat), (∀ b ∈ bs, b < 256) →
    parseBytes bs.length (encodeBytes bs) = some bs := by
  intro bs
  induction bs with
  | nil => intro _; rfl
  | cons b t ih =>
    intro hb
    have hblt : b < 256 := hb b (by simp)
    have h1 : HexDigit (hexChar (b / 16)) = some (b / 16) := hexDigit_hexChar _ (by omega)
    have h2 : HexDigit (hexChar (b % 16)) = some (b % 16) := hexDigit_hexChar _ (by omega)
    have hb2 : b % 16 + 16 * (b / 16) = b := by omega
    show parseBytes (t.length + 1) (hexChar (b / 16) :: hexChar (b % 16) :: encodeBytes t) =
      some (b :: t)
    simp [parseBytes, h1, h2, ih (fun x hx => hb x (List.mem_cons_of_mem b hx)), hb2]

lemma strstrB_no_char (l sub : List Char) (c : Char) (hc : c ∈ sub)
    (hl : ∀ x ∈ l, x ≠ c) : strstrB l sub = false := by
  by_contra h
  rw [Bool.not_eq_false, strstrB, List.any_eq_true] at h
  obtain ⟨t, ht, hpre⟩ := h
  rw [List.mem_tails] at ht
  rw [ List.isPrefixOf_iff_prefix] at hpre
  exact hl c (ht.subset (hpre.subset hc)) rfl

/-- An undefined opcode falls into the default arm of the Disassemble
switch (BadFormat). -/
lemma disasmLine_undefined (pc : Nat) (p : BinOp) (h : definedOp p.op = false) :
    disasmLine pc p = none := by
  obtain ⟨h1, h2, h3, h4, h5, h6, h7, h8, h9, h10, h11, h12, h13, h14, h15, h16, _⟩ :=
    not_definedOp_cases p.op h
  simp only [disasmLine]
  rw [if_neg h1, if_neg h2, if_neg h3, if_neg h4, if_neg h5, if_neg h6, if_neg h7, if_neg h8,
    if_neg h9, if_neg h10, if_neg h11, if_neg h12, if_neg h13, if_neg h14, if_neg h15, if_neg h16]

lemma disassembleFrom_undefined_none : ∀ (prog : List BinOp) (pc j : Nat) (p : BinOp),
    prog.get? j = some p → definedOp p.op = false →
    (∀ i q, i ≤ j → prog.get? i = some q → q.op ≠ INT_END_OF_PROGRAM) →
    DisassembleFrom pc prog = none := by
  intro prog
  induction prog with
  | nil =>
    intro pc j p hg _ _
    exact absurd hg (by simp)
  | cons q rest ih =>
    intro pc j p hg hundef hnoend
    have hqne : q.op ≠ INT_END_OF_PROGRAM := hnoend 0 q (by omega) (by simp)
    simp only [DisassembleFrom]
    rw [if_neg hqne]
    cases j with
    | zero =>
      have hqp : q = p := by simpa using hg
      subst hqp
      rw [disasmLine_undefined pc q hundef]
    | succ k =>
      have hrec : DisassembleFrom (pc + 1) rest = none :=
        ih (pc + 1) k p (by simpa using hg) hundef
          (fun i q2 hi hgi => hnoend (i + 1) q2 (by omega) (by simpa using hgi))
      rw [hrec]
      cases disasmLine pc q <;> rfl

theorem C4_counterexample :
    definedOp 99 = false ∧
    LoadProgram [strL ("$$LDcode"), strL ("63000000000000000000"), strL ("$$bits")] =
      some ([⟨99, 0, 0, 0, 0⟩], initSym) :=
  ⟨by decide, by rfl⟩

/-- C4 (amended): LoadProgram does not validate opcodes at all: any record
of twenty hex characters is accepted and its opcode word stored verbatim,
defined or not (a non-hex character is what aborts the load).  The fatal
rejection of an undefined opcode happens in Disassemble, which main runs
right after loading: it aborts on the first instruction with an opcode
outside the defined set (reached before any end marker). -/
theorem C4_load_no_opcode_check :
    (∀ (b0 b1 b2 b3 b4 b5 b6 b7 b8 b9 : Nat),
        b0 < 256 → b1 < 256 → b2 < 256 → b3 < 256 → b4 < 256 → b5 < 256 →
        b6 < 256 → b7 < 256 → b8 < 256 → b9 < 256 →
        LoadProgram [strL ("$$LDcode"),
            encodeBytes [b0, b1, b2, b3, b4, b5, b6, b7, b8, b9], strL ("$$bits")] =
          some ([⟨b0 + 256 * b1, b2 + 256 * b3, b4 + 256 * b5, b6 + 256 * b7,
                  toSigned (b8 + 256 * b9)⟩], initSym)) ∧
    (∀ (prog : List BinOp) (j : Nat) (p : BinOp), prog.get? j = some p →
        definedOp p.op = false →
        (∀ i q, i ≤ j → prog.get? i = some q → q.op ≠ INT_END_OF_PROGRAM) →
        Disassemble prog = none) := by
  constructor
  · intro b0 b1 b2 b3 b4 b5 b6 b7 b8 b9 v0 v1 v2 v3 v4 v5 v6 v7 v8 v9
    have hbounds : ∀ b ∈ [b0, b1, b2, b3, b4, b5, b6, b7, b8, b9], b < 256 := by
      intro b hbm
      simp at hbm
      rcases hbm with rfl|rfl|rfl|rfl|rfl|rfl|rfl|rfl|rfl|rfl <;> assumption
    have hparse : parseBytes 10 (encodeBytes [b0, b1, b2, b3, b4, b5, b6, b7, b8, b9]) =
        some [b0, b1, b2, b3, b4, b5, b6, b7, b8, b9] :=
      parseBytes_encodeBytes [b0, b1, b2, b3, b4, b5, b6, b7, b8, b9] hbounds
    have hop : parseOpLine (encodeBytes [b0, b1, b2, b3, b4, b5, b6, b7, b8, b9]) =
        some ⟨b0 + 256 * b1, b2 + 256 * b3, b4 + 256 * b5, b6 + 256 * b7,
              toSigned (b8 + 256 * b9)⟩ := by
      simp only [parseOpLine, hparse]
    have hnostr : strstrB (encodeBytes [b0, b1, b2, b3, b4, b5, b6, b7, b8, b9])
        (strL ("$$bits")) = false := by
      apply strstrB_no_char _ _ '$' (by decide)
      intro x hx
      obtain ⟨b, hbmem, hxin⟩ := List.mem_bind.mp hx
      have hblt : b < 256 := hbounds b hbmem
      simp at hxin
      rcases hxin with rfl | rfl
      · exact hexChar_ne_dollar _ (by omega)
      · exact hexChar_ne_dollar _ (by omega)
    have hcode : loadCode [encodeBytes [b0, b1, b2, b3, b4, b5, b6, b7, b8, b9],
        strL ("$$bits")] =
        some ([⟨b0 + 256 * b1, b2 + 256 * b3, b4 + 256 * b5, b6 + 256 * b7,
               toSigned (b8 + 256 * b9)⟩], []) := by
      simp only [loadCode, hop]
      rw [if_neg (by simp [hnostr])]
      rfl
    simp only [LoadProgram, hcode]
    rw [if_neg (by decide)]
    rfl
  · intro prog j p hg hundef hnoend
    exact disassembleFrom_undefined_none prog 0 j p hg hundef hnoend

theorem C4_load_no_opcode_check_witness :
    LoadProgram [strL ("$$LDcode"), encodeBytes [99, 0, 0, 0, 0, 0, 0, 0, 0, 0],
        strL ("$$bits")] =
      some ([⟨99 + 256 * 0, 0 + 256 * 0, 0 + 256 * 0, 0 + 256 * 0,
              toSigned (0 + 256 * 0)⟩], initSym) :=
  C4_load_no_opcode_check.1 99 0 0 0 0 0 0 0 0 0 (by omega) (by omega) (by omega)
    (by omega) (by omega) (by omega) (by omega) (by omega) (by omega) (by omega)
